import Mathlib

/-!
Verification of the mangabuddy_downloader image download pipeline
(src/downloader/download.py and src/downloader/scraper.py).

The shallow embedding models:
  - download_image (download.py lines 18-47): the retry loop with
    exponential backoff. The network is abstracted as a Client oracle
    mapping the attempt index to the response of that attempt; the
    filesystem is a map from paths to optional byte contents. The
    Python function body is a for-loop over range(retries) whose every
    iteration either returns True (successful write), sleeps and
    continues, or returns False on the final iteration; if retries is
    not positive the loop body never runs and the function returns
    None, which the model renders as the ok field being none.
  - download_single / download_chapter (download.py lines 49-102):
    the destination naming scheme page_N with inferred extension, the
    sequential filesystem effect of a batch, and, as a small-step
    transition system, the semaphore-gated cooperative scheduling of
    the per-item tasks with the progress counter.
  - get_image_urls (scraper.py lines 174-197): the chapImages regex
    search and the per-item cleanup, with the page fetch abstracted as
    either an HTTP error or a fetched html text.
-/

namespace MB

/-- Filesystem model: a map from paths (lists of characters) to the
optional byte content stored at that path. -/
abbrev FS := List Char → Option (List Nat)

/-- Outcome of a single GET attempt inside download_image: either the
transport raises (timeout, connection error, or a non-2xx status turned
into an exception by raise_for_status), or a 2xx response with a body. -/
inductive Resp where
  | err : Resp
  | ok : List Nat → Resp
deriving DecidableEq

/-- Network oracle for one download_image call: the response received by
the k-th attempt (0-indexed). The url, headers and referer of the
request are fixed for the whole call and are absorbed into the oracle. -/
abbrev Client := Nat → Resp

/-- Body of an attempt response; empty for a transport error. -/
def respContent : Resp → List Nat
  | Resp.err => []
  | Resp.ok content => content

/-- An attempt succeeds when the transport does not raise and the body is
nonempty: download.py line 35 raises ValueError on an empty payload, and
that exception is caught by the same except clause as transport errors. -/
def attemptOk (client : Client) (k : Nat) : Bool :=
  match client k with
  | Resp.err => false
  | Resp.ok content => !content.isEmpty

/-- Writing a file: open(path, "wb") truncates any existing file and
replaces its content wholesale. -/
def writeFile (fs : FS) (path : List Char) (content : List Nat) : FS :=
  fun p => if p = path then some content else fs p

/-- Result of one download_image call: the returned value (some b for an
explicit return of a boolean, none for the implicit None when the loop
body never runs), the filesystem after the call, and the list of backoff
sleep durations in the order they were awaited. -/
structure DIResult where
  ok : Option Bool
  fs : FS
  sleeps : List Nat

/-- The for-loop of download_image (download.py lines 28-47), iterating
attempt = attempt, attempt+1, ... while fuel counts the remaining
iterations of range(retries). On a successful attempt the payload is
written to path and True is returned; on a failed attempt the loop
sleeps 2 ^ attempt time units and continues when attempt < retries - 1,
and returns False without sleeping on the final iteration. -/
def downloadLoop (client : Client) (path : List Char) (retries : Nat) (fs : FS) :
    Nat → Nat → DIResult
  | _, 0 => ⟨none, fs, []⟩
  | attempt, fuel + 1 =>
    if attemptOk client attempt then
      ⟨some true, writeFile fs path (respContent (client attempt)), []⟩
    else if attempt < retries - 1 then
      ⟨(downloadLoop client path retries fs (attempt + 1) fuel).ok,
       (downloadLoop client path retries fs (attempt + 1) fuel).fs,
       2 ^ attempt :: (downloadLoop client path retries fs (attempt + 1) fuel).sleeps⟩
    else
      ⟨some false, fs, []⟩

/-- download_image (download.py lines 18-47): run the attempt loop from
attempt 0 with range(retries) iterations. The function is total: every
exception of an attempt is caught inside the loop, so no exception
crosses the boundary of the call. -/
def download_image (client : Client) (path : List Char) (retries : Nat) (fs : FS) :
    DIResult :=
  downloadLoop client path retries fs 0 retries

/-- Number of loop iterations actually executed when the loop runs from
the given attempt with the given remaining fuel: iterating stops at the
first successful attempt or when the fuel runs out. -/
def madeFrom (client : Client) : Nat → Nat → Nat
  | _, 0 => 0
  | attempt, fuel + 1 =>
    if attemptOk client attempt then 1 else 1 + madeFrom client (attempt + 1) fuel

/-- Number of attempts actually made by download_image with the given
retry budget. -/
def attemptsMade (client : Client) (retries : Nat) : Nat :=
  madeFrom client 0 retries

/-- Index of the first successful attempt at or after the given attempt
within the given fuel (defaults to 0 when there is none). -/
def firstOkFrom (client : Client) : Nat → Nat → Nat
  | _, 0 => 0
  | attempt, fuel + 1 =>
    if attemptOk client attempt then attempt else firstOkFrom client (attempt + 1) fuel

/-! Destination naming (download.py lines 87-89):
ext = os.path.splitext(img_url.split("?")[0])[1] or ".jpg"
img_path = os.path.join(chapter_dir, f"page_i+1ext") where the name is
the word page, an underscore, the decimal rendering of index + 1, and
the inferred extension. The chapter directory is the same for every
item of the batch, so only the name inside it is modelled. -/

/-- Decimal digit to character, as used by the decimal rendering of a
Python int inside an f-string. -/
def digitChar (d : Nat) : Char :=
  if d = 0 then '0' else if d = 1 then '1' else if d = 2 then '2'
  else if d = 3 then '3' else if d = 4 then '4' else if d = 5 then '5'
  else if d = 6 then '6' else if d = 7 then '7' else if d = 8 then '8'
  else if d = 9 then '9' else '*'

/-- Fuel-driven accumulator loop producing the decimal digits of n in
order, most significant first, in front of acc. The fuel bounds the
number of digits; any fuel at least n suffices. -/
def natDecimalAux : Nat → Nat → List Char → List Char
  | 0, _, acc => acc
  | fuel + 1, n, acc =>
    if n = 0 then acc
    else natDecimalAux fuel (n / 10) (digitChar (n % 10) :: acc)

/-- Decimal rendering of a natural number, as Python str of an int. -/
def natDecimal (n : Nat) : List Char :=
  if n = 0 then ['0'] else natDecimalAux n n []

/-- Value of a list of decimal digit characters, used to invert
natDecimal. -/
def digitsVal (l : List Char) : Nat :=
  l.foldl (fun acc c => acc * 10 + (c.toNat - 48)) 0

/-- Index of the last occurrence of a character in a list, if any:
the rfind of the CPython splitext implementation. -/
def rfindIdx (c : Char) : List Char → Option Nat
  | [] => none
  | a :: rest =>
    match rfindIdx c rest with
    | some i => some (i + 1)
    | none => if a = c then some (0 : Nat) else none

/-- The extension part of os.path.splitext on a posix path: the suffix
from the last dot onward, provided that dot lies after the last slash
and the basename does not consist solely of leading dots up to it;
otherwise the empty extension. Mirrors genericpath._splitext with
sep = slash and extsep = dot. -/
def splitextExt (p : List Char) : List Char :=
  match rfindIdx '.' p with
  | none => []
  | some d =>
    let start : Nat :=
      match rfindIdx '/' p with
      | none => 0
      | some s => s + 1
    if start ≤ d ∧ (List.range' start (d - start)).any (fun j => p.getD j '.' ≠ '.') then
      p.drop d
    else []

/-- url.split("?")[0]: everything before the first question mark. -/
def splitQuery (url : List Char) : List Char :=
  url.takeWhile (fun c => c ≠ '?')

/-- The inferred extension of a locator (download.py line 88): splitext
of the query-stripped url, defaulting to .jpg when empty, since the
Python or-expression replaces a falsy empty string by ".jpg". -/
def inferExt (url : List Char) : List Char :=
  let e := splitextExt (splitQuery url)
  if e = [] then ".jpg".data else e

/-- Destination file name of the item at the given ordinal position
(download.py line 89): page_, the decimal rendering of position + 1,
then the inferred extension of the locator. -/
def destName (i : Nat) (url : List Char) : List Char :=
  "page_".data ++ natDecimal (i + 1) ++ inferExt url

/-- Filesystem effect of one batch (download.py line 95): each item of
enumerate(image_urls) runs download_image against its own destination
name. The per-item clients are indexed by position; since every item
writes only its own disjoint path, the sequential fold over the
enumerated list yields the same final filesystem as any interleaving of
the cooperative scheduler. -/
def runBatchFS (clients : Nat → Client) (retries : Nat) (urls : List (List Char))
    (fs : FS) : FS :=
  (urls.enum).foldl
    (fun acc iu => (download_image (clients iu.1) (destName iu.1 iu.2) retries acc).fs)
    fs

/-! Embedding of get_image_urls (scraper.py lines 174-197). The page
fetch is abstracted: either the client raised httpx.HTTPError (the
except branch returns the empty list) or it produced an html text. On
an html text the function searches for the chapImages assignment with
re.search, returns the empty list when there is no match, and otherwise
splits the matched group on commas, keeps the items whose strip is
nonempty, and removes a trailing query string from each. -/

/-- Whitespace as matched by the regex class backslash-s and by
str.strip for ASCII text. -/
def isPySpace (c : Char) : Bool :=
  c = ' ' || c = '\t' || c = '\n' || c = '\r' || c = '\x0b' || c = '\x0c'

/-- Python str.strip with no argument: remove leading and trailing
whitespace. -/
def pyStrip (s : List Char) : List Char :=
  ((s.dropWhile isPySpace).reverse.dropWhile isPySpace).reverse

/-- Consume an exact literal from the front of the input, returning the
rest on success. -/
def dropLit : List Char → List Char → Option (List Char)
  | [], s => some s
  | _ :: _, [] => none
  | c :: cs, x :: xs => if x = c then dropLit cs xs else none

/-- Quote characters accepted by the character class of the chapImages
regex: a single or a double quote. -/
def isQuote (c : Char) : Bool := c = '\'' || c = '"'

/-- Attempt to match the regex var backslash-s+ chapImages backslash-s*
= backslash-s* quote ([^quotes]+) quote at the head of the input,
returning the captured group. Each greedy piece is followed by a
character disjoint from its class, so maximal munch is exact. -/
def matchChapAt (s : List Char) : Option (List Char) :=
  (dropLit "var".data s).bind fun s1 =>
    if (s1.takeWhile isPySpace).isEmpty then none
    else
      (dropLit "chapImages".data (s1.dropWhile isPySpace)).bind fun s2 =>
        (dropLit "=".data (s2.dropWhile isPySpace)).bind fun s3 =>
          match s3.dropWhile isPySpace with
          | [] => none
          | q :: s4 =>
            if isQuote q then
              match s4.takeWhile (fun c => !isQuote c) with
              | [] => none
              | content =>
                match s4.drop content.length with
                | [] => none
                | c2 :: _ => if isQuote c2 then some content else none
            else none

/-- re.search of the chapImages pattern: try a match at every position
from the left and return the leftmost capture. -/
def searchChapImages : List Char → Option (List Char)
  | [] => none
  | c :: rest =>
    match matchChapAt (c :: rest) with
    | some g => some g
    | none => searchChapImages rest

/-- re.sub of the pattern question-mark dot-star dollar with the empty
replacement: delete from the leftmost question mark whose tail runs to
the end of the string without an interior newline; a single trailing
newline is not consumed by the dollar anchor and survives. -/
def subQueryTail : List Char → List Char
  | [] => []
  | c :: rest =>
    if c = '?' then
      if rest.all (fun x => x ≠ '\n') then []
      else if rest.getLast? = some '\n' ∧ rest.dropLast.all (fun x => x ≠ '\n') then ['\n']
      else c :: subQueryTail rest
    else c :: subQueryTail rest

/-- Result of fetching the chapter page inside get_image_urls: either
the transport raised httpx.HTTPError or an html text was obtained. -/
inductive PageFetch where
  | httpError : PageFetch
  | ok : List Char → PageFetch
deriving DecidableEq

/-- get_image_urls (scraper.py lines 174-197): on a transport error the
except branch returns the empty list; otherwise search the html for the
chapImages assignment, return the empty list when absent, and otherwise
split the captured group on commas, keeping the stripped items that are
nonempty, each with its trailing query string removed. -/
def get_image_urls (page : PageFetch) : List (List Char) :=
  match page with
  | PageFetch.httpError => []
  | PageFetch.ok html =>
    match searchChapImages html with
    | none => []
    | some group =>
      (group.splitOn ',').filterMap fun img =>
        let s := pyStrip img
        if s = [] then none else some (subQueryTail s)

/-- The skip branch of download_chapter (download.py lines 63-65): the
batch is skipped exactly when get_image_urls produced the empty list;
in that case the same message is printed and the same chapter directory
is returned as on the normal path, whatever the cause of emptiness. -/
def chapterSkips (page : PageFetch) : Bool :=
  (get_image_urls page).isEmpty

/-! Cooperative scheduling of one batch (download.py lines 84-95) as a
small-step transition system. Each of the N tasks created by
asyncio.gather moves through four phases: waiting (created, before
entering the async-with of the semaphore), admitted (holding a
semaphore slot, awaiting download_image), released (slot given back,
before the progress update), and done (after progress.update advanced
the counter by 1). The semaphore of capacity C admits a waiting task
only while fewer than C tasks are currently admitted. The progress
field counts the ticks received by the progress bar task. -/

/-- Phase of one per-item task of the batch. -/
inductive Phase where
  | waiting : Phase
  | admitted : Phase
  | released : Phase
  | done : Phase
deriving DecidableEq

/-- State of a batch of N tasks: the phase of each task and the progress
counter. -/
structure BState (N : Nat) where
  phase : Fin N → Phase
  progress : Nat

/-- Number of tasks currently in a given phase. -/
def countP {N : Nat} (s : BState N) (p : Phase) : Nat :=
  (Finset.univ.filter (fun i => s.phase i = p)).card

/-- One scheduler step of the batch with gate capacity C: a waiting task
is admitted when a slot is free, an admitted task finishes its awaited
download_image and leaves the async-with releasing the slot, or a
released task performs its progress update. No step touches any other
task. -/
inductive Step (C : Nat) {N : Nat} : BState N → BState N → Prop
  | acquire (s : BState N) (i : Fin N) :
      s.phase i = Phase.waiting → countP s Phase.admitted < C →
      Step C s ⟨Function.update s.phase i Phase.admitted, s.progress⟩
  | finish (s : BState N) (i : Fin N) :
      s.phase i = Phase.admitted →
      Step C s ⟨Function.update s.phase i Phase.released, s.progress⟩
  | tick (s : BState N) (i : Fin N) :
      s.phase i = Phase.released →
      Step C s ⟨Function.update s.phase i Phase.done, s.progress + 1⟩

/-- Initial state of a batch: every task waiting, progress zero. -/
def initState (N : Nat) : BState N := ⟨fun _ => Phase.waiting, 0⟩

/-- States reachable by the cooperative scheduler from the start of the
batch. -/
inductive Reachable (C N : Nat) : BState N → Prop
  | init : Reachable C N (initState N)
  | step (s t : BState N) : Reachable C N s → Step C s t → Reachable C N t

/-! Lemmas about the download_image loop. -/

theorem downloadLoop_zero (client : Client) (path : List Char) (retries : Nat)
    (fs : FS) (attempt : Nat) :
    downloadLoop client path retries fs attempt 0 = ⟨none, fs, []⟩ := rfl

theorem downloadLoop_succ (client : Client) (path : List Char) (retries : Nat)
    (fs : FS) (attempt fuel : Nat) :
    downloadLoop client path retries fs attempt (fuel + 1)
      = if attemptOk client attempt then
          ⟨some true, writeFile fs path (respContent (client attempt)), []⟩
        else if attempt < retries - 1 then
          ⟨(downloadLoop client path retries fs (attempt + 1) fuel).ok,
           (downloadLoop client path retries fs (attempt + 1) fuel).fs,
           2 ^ attempt :: (downloadLoop client path retries fs (attempt + 1) fuel).sleeps⟩
        else ⟨some false, fs, []⟩ := rfl

/-- The returned value of the loop: True exactly when some attempt in
the window succeeds, False otherwise, provided the window is nonempty
and reaches the end of range(retries). -/
theorem downloadLoop_ok (client : Client) (path : List Char) (retries : Nat) (fs : FS) :
    ∀ fuel attempt, attempt + fuel = retries → 0 < fuel →
      (downloadLoop client path retries fs attempt fuel).ok
        = some ((List.range' attempt fuel).any (attemptOk client)) := by
  intro fuel
  induction fuel with
  | zero => intro attempt _ h; exact absurd h (by omega)
  | succ f ih =>
    intro attempt hsum _
    rw [downloadLoop_succ]
    by_cases hA : attemptOk client attempt = true
    · simp [hA, List.range'_succ]
    · cases f with
      | zero =>
        have hlt : ¬ attempt < retries - 1 := by omega
        simp [hA, hlt, List.range'_succ]
      | succ g =>
        have hlt : attempt < retries - 1 := by omega
        have hrec := ih (attempt + 1) (by omega) (by omega)
        simp [hA, hlt, List.range'_succ, hrec]

/-- When every attempt of the window fails, the loop leaves the
filesystem untouched: no write happens on any failure path. -/
theorem downloadLoop_fs_of_fail (client : Client) (path : List Char) (retries : Nat)
    (fs : FS) :
    ∀ fuel attempt, (∀ k, attempt ≤ k → k < attempt + fuel → attemptOk client k = false) →
      (downloadLoop client path retries fs attempt fuel).fs = fs := by
  intro fuel
  induction fuel with
  | zero => intro attempt _; rfl
  | succ f ih =>
    intro attempt hfail
    rw [downloadLoop_succ]
    have hA : attemptOk client attempt = false := hfail attempt (Nat.le_refl attempt) (by omega)
    by_cases hlt : attempt < retries - 1
    · simp [hA, hlt]
      exact ih (attempt + 1) (fun k hk1 hk2 => hfail k (by omega) (by omega))
    · simp [hA, hlt]

/-- The loop never writes any path other than its own destination. -/
theorem downloadLoop_fs_off (client : Client) (path : List Char) (retries : Nat)
    (fs : FS) :
    ∀ fuel attempt p, p ≠ path →
      (downloadLoop client path retries fs attempt fuel).fs p = fs p := by
  intro fuel
  induction fuel with
  | zero => intro attempt p _; rfl
  | succ f ih =>
    intro attempt p hp
    rw [downloadLoop_succ]
    by_cases hA : attemptOk client attempt = true
    · simp [hA, writeFile, hp]
    · by_cases hlt : attempt < retries - 1
      · simp [hA, hlt]; exact ih (attempt + 1) p hp
      · simp [hA, hlt]

/-- When some attempt of the window succeeds, the loop writes the body
of the first successful attempt to the destination path. -/
theorem downloadLoop_fs_of_ok (client : Client) (path : List Char) (retries : Nat)
    (fs : FS) :
    ∀ fuel attempt, attempt + fuel = retries →
      (List.range' attempt fuel).any (attemptOk client) = true →
      (downloadLoop client path retries fs attempt fuel).fs
        = writeFile fs path (respContent (client (firstOkFrom client attempt fuel))) := by
  intro fuel
  induction fuel with
  | zero => intro attempt _ h; simp [List.range'] at h
  | succ f ih =>
    intro attempt hsum hany
    rw [downloadLoop_succ]
    by_cases hA : attemptOk client attempt = true
    · simp [hA, firstOkFrom]
    · cases f with
      | zero =>
        rw [List.range'_succ] at hany
        simp [hA] at hany
      | succ g =>
        have hlt : attempt < retries - 1 := by omega
        rw [List.range'_succ] at hany
        simp only [List.any_cons, hA, Bool.false_or] at hany
        have hrec := ih (attempt + 1) (by omega) hany
        simp [hA, hlt, hrec, firstOkFrom]

/-- madeFrom is at least one on a nonempty window. -/
theorem madeFrom_pos (client : Client) (attempt fuel : Nat) (h : 0 < fuel) :
    0 < madeFrom client attempt fuel := by
  cases fuel with
  | zero => exact absurd h (by omega)
  | succ f =>
    by_cases hA : attemptOk client attempt = true <;> simp [madeFrom, hA]

/-- The sleep log of the loop: one backoff of 2 ^ k after each failed
non-final attempt k, none after a success and none after the final
failure. -/
theorem downloadLoop_sleeps (client : Client) (path : List Char) (retries : Nat)
    (fs : FS) :
    ∀ fuel attempt, attempt + fuel = retries →
      (downloadLoop client path retries fs attempt fuel).sleeps
        = (List.range' attempt (madeFrom client attempt fuel - 1)).map (fun k => 2 ^ k) := by
  intro fuel
  induction fuel with
  | zero => intro attempt _; simp [downloadLoop_zero, madeFrom]
  | succ f ih =>
    intro attempt hsum
    rw [downloadLoop_succ]
    by_cases hA : attemptOk client attempt = true
    · simp [hA, madeFrom]
    · cases f with
      | zero =>
        have hlt : ¬ attempt < retries - 1 := by omega
        simp [hA, hlt, madeFrom]
      | succ g =>
        have hlt : attempt < retries - 1 := by omega
        have hrec := ih (attempt + 1) (by omega)
        have hpos : 0 < madeFrom client (attempt + 1) (g + 1) :=
          madeFrom_pos client (attempt + 1) (g + 1) (by omega)
        simp only [hA, hlt, if_true, if_false, Bool.false_eq_true, ite_false, ite_true, hrec]
        rw [show madeFrom client attempt (g + 1 + 1) = 1 + madeFrom client (attempt + 1) (g + 1) by
              simp [madeFrom, hA]]
        rw [show 1 + madeFrom client (attempt + 1) (g + 1) - 1
              = (madeFrom client (attempt + 1) (g + 1) - 1) + 1 by omega]
        rw [List.range'_succ]
        simp

/-! Lemmas about the decimal rendering and the destination names. -/

theorem natDecimalAux_zero (fuel : Nat) (acc : List Char) :
    natDecimalAux fuel 0 acc = acc := by
  cases fuel <;> simp [natDecimalAux]

theorem natDecimalAux_acc :
    ∀ (fuel n : Nat) (acc : List Char),
      natDecimalAux fuel n acc = natDecimalAux fuel n [] ++ acc := by
  intro fuel
  induction fuel with
  | zero => intro n acc; simp [natDecimalAux]
  | succ f ih =>
    intro n acc
    by_cases hn : n = 0
    · simp [natDecimalAux, hn]
    · rw [natDecimalAux, natDecimalAux, if_neg hn, if_neg hn,
        ih (n / 10) (digitChar (n % 10) :: acc), ih (n / 10) [digitChar (n % 10)]]
      simp

theorem digitsVal_append_one (l : List Char) (c : Char) :
    digitsVal (l ++ [c]) = digitsVal l * 10 + (c.toNat - 48) := by
  simp [digitsVal, List.foldl_append]

theorem digitChar_val : ∀ d, d < 10 → (digitChar d).toNat - 48 = d := by decide

theorem digitsVal_natDecimalAux :
    ∀ (fuel n : Nat), 0 < n → n ≤ fuel → digitsVal (natDecimalAux fuel n []) = n := by
  intro fuel
  induction fuel with
  | zero => intro n h1 h2; omega
  | succ f ih =>
    intro n h1 h2
    rw [natDecimalAux, if_neg (by omega), natDecimalAux_acc]
    rw [digitsVal_append_one, digitChar_val (n % 10) (by omega)]
    by_cases hq : n / 10 = 0
    · rw [hq, natDecimalAux_zero]
      simp [digitsVal]
      omega
    · have hlt : n / 10 < n := Nat.div_lt_self h1 (by norm_num)
      rw [ih (n / 10) (by omega) (by omega)]
      omega

theorem digitsVal_natDecimal (n : Nat) : digitsVal (natDecimal n) = n := by
  by_cases hn : n = 0
  · subst hn; decide
  · rw [natDecimal, if_neg hn]
    exact digitsVal_natDecimalAux n n (by omega) (Nat.le_refl n)

theorem natDecimal_inj {m n : Nat} (h : natDecimal m = natDecimal n) : m = n := by
  have := congrArg digitsVal h
  rwa [digitsVal_natDecimal, digitsVal_natDecimal] at this

theorem natDecimalAux_mem :
    ∀ (fuel n : Nat) (acc : List Char) (c : Char), c ∈ natDecimalAux fuel n acc →
      c ∈ acc ∨ ∃ d, d < 10 ∧ c = digitChar d := by
  intro fuel
  induction fuel with
  | zero => intro n acc c h; exact Or.inl h
  | succ f ih =>
    intro n acc c h
    by_cases hn : n = 0
    · rw [natDecimalAux, if_pos hn] at h; exact Or.inl h
    · rw [natDecimalAux, if_neg hn] at h
      rcases ih (n / 10) (digitChar (n % 10) :: acc) c h with hin | hd
      · rcases List.mem_cons.mp hin with hc | hc
        · exact Or.inr ⟨n % 10, by omega, hc⟩
        · exact Or.inl hc
      · exact Or.inr hd

theorem digitChar_ne_dot : ∀ d, d < 10 → digitChar d ≠ '.' := by decide

theorem natDecimal_no_dot (n : Nat) : ∀ c ∈ natDecimal n, (c != '.') = true := by
  intro c hc
  by_cases hn : n = 0
  · subst hn; simp [natDecimal] at hc; subst hc; decide
  · rw [natDecimal, if_neg hn] at hc
    rcases natDecimalAux_mem n n [] c hc with h | ⟨d, hd, hcd⟩
    · simp at h
    · subst hcd
      simpa [bne_iff_ne] using digitChar_ne_dot d hd

theorem takeWhile_append_head (p : Char → Bool) :
    ∀ (l e : List Char), (∀ c ∈ l, p c = true) →
      (∀ c0, e.head? = some c0 → p c0 = false) →
      (l ++ e).takeWhile p = l := by
  intro l
  induction l with
  | nil =>
    intro e _ he
    cases e with
    | nil => rfl
    | cons c0 rest => simp [List.takeWhile, he c0 rfl]
  | cons a l ih =>
    intro e hl he
    simp only [List.cons_append, List.takeWhile]
    rw [hl a (List.mem_cons_self a l)]
    simp [ih e (fun c hc => hl c (List.mem_cons_of_mem a hc)) he]

theorem rfindIdx_get (c : Char) :
    ∀ (l : List Char) (d : Nat), rfindIdx c l = some d → l[d]? = some c := by
  intro l
  induction l with
  | nil => intro d h; simp [rfindIdx] at h
  | cons a rest ih =>
    intro d h
    rw [rfindIdx] at h
    cases hr : rfindIdx c rest with
    | some i =>
      rw [hr] at h
      have hd : i + 1 = d := Option.some.inj h
      subst hd
      simpa using ih i hr
    | none =>
      rw [hr] at h
      by_cases ha : a = c
      · rw [if_pos ha] at h
        have hd : (0 : Nat) = d := Option.some.inj h
        subst hd
        simp [ha]
      · rw [if_neg ha] at h
        exact absurd h (by simp)

/-- A nonempty splitext extension begins with the dot it was split at. -/
theorem splitextExt_head (p : List Char) :
    splitextExt p = [] ∨ (splitextExt p).head? = some '.' := by
  unfold splitextExt
  cases hr : rfindIdx '.' p with
  | none => exact Or.inl rfl
  | some d =>
    simp only []
    split
    · right
      rw [List.head?_drop]
      exact rfindIdx_get '.' p d hr
    · exact Or.inl rfl

/-- The inferred extension always begins with a dot: either the
splitext extension does, or the default .jpg does. -/
theorem inferExt_head (url : List Char) : (inferExt url).head? = some '.' := by
  rw [inferExt]
  by_cases he : splitextExt (splitQuery url) = []
  · simp [he]
  · rcases splitextExt_head (splitQuery url) with h | h
    · exact absurd h he
    · simp only [if_neg he]
      exact h

/-- The inferred extension is never empty. -/
theorem inferExt_ne_nil (url : List Char) : inferExt url ≠ [] := by
  intro h
  have hh := inferExt_head url
  rw [h] at hh
  simp at hh

/-- Dropping the page_ prefix of a destination name and reading up to
the first dot recovers exactly the decimal rendering of position + 1. -/
theorem destName_num (i : Nat) (url : List Char) :
    ((destName i url).drop 5).takeWhile (fun c => c != '.') = natDecimal (i + 1) := by
  rw [destName, List.append_assoc,
    show (5 : Nat) = ("page_".data).length from rfl, List.drop_left]
  refine takeWhile_append_head _ _ _ (natDecimal_no_dot (i + 1)) ?_
  intro c0 hc0
  rw [inferExt_head url] at hc0
  have : c0 = '.' := (Option.some.inj hc0).symm
  subst this
  rfl

/-- Destination names at distinct positions differ, whatever the two
locators are: the decimal page number read back from the name is the
position plus one. -/
theorem destName_inj {i j : Nat} (u1 u2 : List Char) (hij : i ≠ j) :
    destName i u1 ≠ destName j u2 := by
  intro h
  have h2 := congrArg (fun l => (l.drop 5).takeWhile (fun c => c != '.')) h
  simp only [destName_num] at h2
  have h3 := natDecimal_inj h2
  omega

/-! Lemmas about the filesystem effect of a batch. -/

/-- One fold step of runBatchFS: the filesystem after the item at the
given enumerated position has run its download_image. -/
def batchWrite (clients : Nat → Client) (retries : Nat) (acc : FS)
    (iu : Nat × List Char) : FS :=
  (download_image (clients iu.1) (destName iu.1 iu.2) retries acc).fs

theorem runBatchFS_eq_foldl (clients : Nat → Client) (retries : Nat)
    (urls : List (List Char)) (fs : FS) :
    runBatchFS clients retries urls fs
      = (urls.enum).foldl (batchWrite clients retries) fs := rfl

/-- download_image writes no path other than its own destination. -/
theorem download_image_fs_off (client : Client) (path : List Char) (retries : Nat)
    (fs : FS) (p : List Char) (hp : p ≠ path) :
    (download_image client path retries fs).fs p = fs p :=
  downloadLoop_fs_off client path retries fs retries 0 p hp

/-- When some attempt within the budget succeeds, download_image writes
the body of the first successful attempt at its destination. -/
theorem download_image_fs_of_ok (client : Client) (path : List Char) (retries : Nat)
    (fs : FS) (hok : (List.range retries).any (attemptOk client) = true) :
    (download_image client path retries fs).fs
      = writeFile fs path (respContent (client (firstOkFrom client 0 retries))) := by
  rw [download_image]
  refine downloadLoop_fs_of_ok client path retries fs retries 0 (by omega) ?_
  rwa [← List.range_eq_range']

/-- A fold of batch writes whose items all target other destinations
leaves the content at the given path unchanged. -/
theorem foldl_batch_off (clients : Nat → Client) (retries : Nat) :
    ∀ (items : List (Nat × List Char)) (fs : FS) (q : List Char),
      (∀ x ∈ items, destName x.1 x.2 ≠ q) →
      (items.foldl (batchWrite clients retries) fs) q = fs q := by
  intro items
  induction items with
  | nil => intro fs q _; rfl
  | cons x rest ih =>
    intro fs q hq
    rw [List.foldl_cons, ih _ q (fun y hy => hq y (List.mem_cons_of_mem x hy))]
    exact download_image_fs_off (clients x.1) (destName x.1 x.2) retries fs q
      (fun h => hq x (List.mem_cons_self x rest) (h ▸ rfl))

/-- Every enumerated item beyond position i carries an index of at
least i + 1. -/
theorem enum_drop_fst {α : Type} (l : List α) (k : Nat) :
    ∀ x ∈ (l.enum).drop k, k ≤ x.1 := by
  intro x hx
  rcases List.mem_iff_getElem?.mp hx with ⟨m, hm⟩
  rw [List.getElem?_drop, List.getElem?_enum] at hm
  cases hl : l[k + m]? with
  | none => rw [hl] at hm; simp at hm
  | some a =>
    rw [hl] at hm
    simp only [Option.map_some'] at hm
    rw [← Option.some.inj hm]
    exact Nat.le_add_right k m

/-- The filesystem produced by a batch holds, at the destination of any
position whose fetch succeeds within the budget, exactly the body of
the first successful attempt of that position, whatever content any
path held beforehand. -/
theorem runBatchFS_success_at (clients : Nat → Client) (retries : Nat)
    (urls : List (List Char)) (fs : FS) (i : Nat) (url : List Char)
    (hi : urls[i]? = some url)
    (hok : (List.range retries).any (attemptOk (clients i)) = true) :
    runBatchFS clients retries urls fs (destName i url)
      = some (respContent ((clients i) (firstOkFrom (clients i) 0 retries))) := by
  rw [runBatchFS_eq_foldl]
  rw [← List.take_append_drop (i + 1) urls.enum, List.foldl_append]
  rw [foldl_batch_off clients retries _ _ _
    (fun x hx => destName_inj x.2 url (by
      have := enum_drop_fst urls (i + 1) x hx
      omega))]
  rw [List.take_succ]
  have henum : urls.enum[i]? = some (i, url) := by
    rw [List.getElem?_enum, hi]; rfl
  rw [henum]
  simp only [Option.toList_some, List.foldl_append, List.foldl_cons, List.foldl_nil]
  rw [batchWrite, download_image_fs_of_ok _ _ _ _ hok]
  simp [writeFile]

/-! Lemmas about the scheduling transition system. -/

theorem filter_update_eq {N : Nat} (f : Fin N → Phase) (i : Fin N) (v p : Phase) :
    (Finset.univ.filter (fun j => Function.update f i v j = p))
      = if v = p then insert i (Finset.univ.filter (fun j => f j = p))
        else (Finset.univ.filter (fun j => f j = p)).erase i := by
  ext j
  by_cases hj : j = i
  · subst hj
    by_cases hv : v = p <;> simp [Function.update_apply, hv]
  · by_cases hv : v = p <;> simp [Function.update_apply, hj, hv]

/-- One step keeps the number of admitted tasks at or below the gate
capacity. -/
theorem step_countAdmitted {C N : Nat} {s t : BState N} (hst : Step C s t)
    (h : countP s Phase.admitted ≤ C) : countP t Phase.admitted ≤ C := by
  cases hst with
  | acquire i hw hc =>
    rw [countP] at hc ⊢
    simp only []
    rw [filter_update_eq, if_pos rfl,
      Finset.card_insert_of_not_mem (by simp [hw])]
    omega
  | finish i ha =>
    rw [countP] at h ⊢
    simp only []
    rw [filter_update_eq, if_neg (by simp)]
    exact le_trans (Finset.card_erase_le) h
  | tick i hr =>
    rw [countP] at h ⊢
    simp only []
    rw [filter_update_eq, if_neg (by simp)]
    exact le_trans (Finset.card_erase_le) h

/-- In every reachable state, at most C tasks are simultaneously inside
an acquired semaphore slot. -/
theorem reachable_countAdmitted (C N : Nat) (s : BState N) (h : Reachable C N s) :
    countP s Phase.admitted ≤ C := by
  induction h with
  | init => simp [countP, initState]
  | step s t hr hst ih => exact step_countAdmitted hst ih

/-- One step keeps the progress counter equal to the number of tasks
that have performed their progress update. -/
theorem step_progress {C N : Nat} {s t : BState N} (hst : Step C s t)
    (h : s.progress = countP s Phase.done) : t.progress = countP t Phase.done := by
  cases hst with
  | acquire i hw hc =>
    rw [countP] at h ⊢
    simp only []
    rw [filter_update_eq, if_neg (by simp),
      Finset.erase_eq_of_not_mem (by simp [hw])]
    exact h
  | finish i ha =>
    rw [countP] at h ⊢
    simp only []
    rw [filter_update_eq, if_neg (by simp),
      Finset.erase_eq_of_not_mem (by simp [ha])]
    exact h
  | tick i hr =>
    rw [countP] at h ⊢
    simp only []
    rw [filter_update_eq, if_pos rfl,
      Finset.card_insert_of_not_mem (by simp [hr])]
    omega

/-- In every reachable state the progress counter equals the number of
tasks in the done phase: each task ticks the bar exactly once, when it
reaches its terminal phase. -/
theorem reachable_progress (C N : Nat) (s : BState N) (h : Reachable C N s) :
    s.progress = countP s Phase.done := by
  induction h with
  | init => simp [countP, initState]
  | step s t hr hst ih => exact step_progress hst ih

/-- When every task is done, the done count is the batch size. -/
theorem terminal_countDone {N : Nat} (s : BState N)
    (hall : ∀ i, s.phase i = Phase.done) : countP s Phase.done = N := by
  rw [countP, Finset.filter_true_of_mem (fun i _ => hall i)]
  simp

/-- A scheduler step changes the phase of exactly one task: no step
touches a sibling, so no failure cancels another task. -/
theorem step_touches_one {C N : Nat} {s t : BState N} (hst : Step C s t) :
    ∃ i : Fin N, ∀ j : Fin N, j ≠ i → t.phase j = s.phase j := by
  cases hst with
  | acquire i hw hc => exact ⟨i, fun j hj => Function.update_noteq hj _ _⟩
  | finish i ha => exact ⟨i, fun j hj => Function.update_noteq hj _ _⟩
  | tick i hr => exact ⟨i, fun j hj => Function.update_noteq hj _ _⟩

/-! The claims. -/

/-- Claim C1: for every retry budget of at least 1, download_image
returns a boolean: True exactly when some attempt within the budget
succeeds and False exactly when all attempts fail. Every exception of an
individual attempt is absorbed by the except clause inside the loop, so
the embedding is a total function and no per-item failure propagates out
of the call or out of the batch. -/
theorem claim_C1_download_image_boolean (client : Client) (path : List Char)
    (retries : Nat) (fs : FS) (hR : 1 ≤ retries) :
    (∃ b, (download_image client path retries fs).ok = some b)
    ∧ ((download_image client path retries fs).ok = some true
        ↔ ∃ k < retries, attemptOk client k = true)
    ∧ ((download_image client path retries fs).ok = some false
        ↔ ∀ k < retries, attemptOk client k = false) := by
  have hmain := downloadLoop_ok client path retries fs retries 0 (by omega) (by omega)
  rw [← List.range_eq_range'] at hmain
  refine ⟨⟨_, hmain⟩, ?_, ?_⟩
  · rw [show (download_image client path retries fs).ok = _ from hmain]
    simp [List.any_eq_true, List.mem_range]
  · rw [show (download_image client path retries fs).ok = _ from hmain]
    simp [List.any_eq_false, List.mem_range]

/-- Witness for C1 at a concrete failing client with budget 2. -/
theorem claim_C1_witness :
    (download_image (fun _ => Resp.err) ['q'] 2 (fun _ => none)).ok = some false := by
  have h := claim_C1_download_image_boolean (fun _ => Resp.err) ['q'] 2
    (fun _ => none) (by decide)
  exact h.2.2.mpr (by decide)

/-- Claim C2: in every state the scheduler can reach, the number of
tasks simultaneously holding a semaphore slot, that is executing their
awaited download_image inside the async-with, never exceeds the gate
capacity C. -/
theorem claim_C2_gate_capacity (C N : Nat) (hC : 1 ≤ C) (s : BState N)
    (h : Reachable C N s) : countP s Phase.admitted ≤ C :=
  reachable_countAdmitted C N s h

/-- Witness for C2 at capacity 1 over a batch of 2, after one task has
been admitted. -/
theorem claim_C2_witness :
    countP (⟨Function.update (initState 2).phase 0 Phase.admitted, 0⟩ : BState 2)
      Phase.admitted ≤ 1 :=
  claim_C2_gate_capacity 1 2 (by decide) _
    (Reachable.step _ _ Reachable.init (Step.acquire _ 0 rfl (by decide)))

/-- Claim C3: in every reachable state the progress counter equals the
number of tasks that have reached their terminal phase, so each task
ticks the bar exactly once whatever its outcome, after acquiring the
gate, fetching and releasing the gate in that order, which is the only
path through the phases of the system; when every task is done, which
is the state in which the awaited gather returns, the final tick count
is exactly N; and every scheduler step leaves the phase of every
sibling task unchanged, so no failure cancels another task. -/
theorem claim_C3_completion (C N : Nat) (s : BState N) (h : Reachable C N s) :
    s.progress = countP s Phase.done
    ∧ ((∀ i, s.phase i = Phase.done) → s.progress = N)
    ∧ (∀ t, Step C s t → ∃ i : Fin N, ∀ j, j ≠ i → t.phase j = s.phase j) := by
  refine ⟨reachable_progress C N s h, ?_, fun t hst => step_touches_one hst⟩
  intro hall
  rw [reachable_progress C N s h, terminal_countDone s hall]

/-- Witness for C3: a batch of one task driven to its terminal state
shows a final progress count of 1. -/
theorem claim_C3_witness :
    (⟨Function.update (Function.update (Function.update (fun _ => Phase.waiting) 0
        Phase.admitted) 0 Phase.released) 0 Phase.done, 1⟩ : BState 1).progress = 1 := by
  refine (claim_C3_completion 1 1 _ ?_).2.1 (by decide)
  exact Reachable.step _ _ (Reachable.step _ _ (Reachable.step _ _ Reachable.init
    (Step.acquire _ 0 rfl (by decide))) (Step.finish _ 0 (by decide)))
    (Step.tick _ 0 (by decide))

/-- Claim C4: the destination name of an item is page_ followed by the
decimal rendering of its position plus one and the extension inferred
from its locator, a deterministic function of position and extension
alone; names at distinct positions never collide, whatever the two
locators; position 0 maps to page_1; and the page number read back from
the name is position + 1, so the logical ordering of names follows
batch position, independent of completion order. -/
theorem claim_C4_dest_names (i j : Nat) (u1 u2 : List Char) :
    (i ≠ j → destName i u1 ≠ destName j u2)
    ∧ (inferExt u1 = inferExt u2 → destName i u1 = destName i u2)
    ∧ destName 0 u1 = "page_1".data ++ inferExt u1
    ∧ digitsVal (((destName i u1).drop 5).takeWhile (fun c => c != '.')) = i + 1
    ∧ (i < j →
        digitsVal (((destName i u1).drop 5).takeWhile (fun c => c != '.'))
          < digitsVal (((destName j u2).drop 5).takeWhile (fun c => c != '.'))) := by
  refine ⟨fun hij => destName_inj u1 u2 hij, ?_, rfl, ?_, ?_⟩
  · intro he
    rw [destName, destName, he]
  · rw [destName_num, digitsVal_natDecimal]
  · intro hij
    rw [destName_num, destName_num, digitsVal_natDecimal, digitsVal_natDecimal]
    omega

/-- Witness for C4 at positions 0 and 1 with concrete locators. -/
theorem claim_C4_witness :
    destName 0 "a.png".data ≠ destName 1 "b.jpg".data
    ∧ destName 0 "a.png".data = "page_1".data ++ inferExt "a.png".data := by
  have h := claim_C4_dest_names 0 1 "a.png".data "b.jpg".data
  exact ⟨h.1 (by decide), h.2.2.1⟩

/-- Claim C5: a download_image call whose attempts all fail returns
False and leaves the filesystem exactly as it was; in particular, when
no file existed at the destination before the call, none exists after
it: no partially written artifact remains, because the failure paths of
the loop never open the destination file at all. -/
theorem claim_C5_failure_no_file (client : Client) (path : List Char) (retries : Nat)
    (fs : FS) (hR : 1 ≤ retries)
    (hfail : ∀ k < retries, attemptOk client k = false) (hfs : fs path = none) :
    (download_image client path retries fs).ok = some false
    ∧ (download_image client path retries fs).fs = fs
    ∧ (download_image client path retries fs).fs path = none := by
  have hfs2 : (download_image client path retries fs).fs = fs :=
    downloadLoop_fs_of_fail client path retries fs retries 0
      (fun k h1 h2 => hfail k (by omega))
  refine ⟨?_, hfs2, by rw [hfs2]; exact hfs⟩
  have hmain := downloadLoop_ok client path retries fs retries 0 (by omega) (by omega)
  rw [← List.range_eq_range'] at hmain
  rw [show (download_image client path retries fs).ok = _ from hmain]
  simp only [Option.some.injEq]
  rw [List.any_eq_false]
  intro x hx
  simp [hfail x (List.mem_range.mp hx)]

/-- Witness for C5 at a concrete always-failing client with budget 3. -/
theorem claim_C5_witness :
    (download_image (fun _ => Resp.err) ['q', '5'] 3 (fun _ => none)).ok = some false
    ∧ (download_image (fun _ => Resp.err) ['q', '5'] 3 (fun _ => none)).fs ['q', '5']
        = none := by
  have h := claim_C5_failure_no_file (fun _ => Resp.err) ['q', '5'] 3 (fun _ => none)
    (by decide) (by decide) rfl
  exact ⟨h.1, h.2.2⟩

/-- Claim C6: the backoff log of a download_image call is exactly one
sleep of 2 ^ (k - 2) time units before each 1-indexed attempt k > 1
that is actually made: the j-th sleep, at index j - 1 of the log, lasts
2 ^ (j - 1) units, the log has one entry fewer than the number of
attempts made, and hence no sleep follows the final failure or a
successful attempt. -/
theorem claim_C6_backoff (client : Client) (path : List Char) (retries : Nat)
    (fs : FS) (hR : 2 ≤ retries) :
    (download_image client path retries fs).sleeps
      = (List.range (attemptsMade client retries - 1)).map (fun k => 2 ^ k)
    ∧ (∀ k, 2 ≤ k → k ≤ attemptsMade client retries →
        ((download_image client path retries fs).sleeps)[k - 2]? = some (2 ^ (k - 2)))
    ∧ (download_image client path retries fs).sleeps.length
        = attemptsMade client retries - 1 := by
  have hmain := downloadLoop_sleeps client path retries fs retries 0 (by omega)
  rw [← List.range_eq_range'] at hmain
  have h1 : (download_image client path retries fs).sleeps
      = (List.range (attemptsMade client retries - 1)).map (fun k => 2 ^ k) := hmain
  refine ⟨h1, ?_, by rw [h1]; simp⟩
  intro k hk2 hkm
  have hmpos : 0 < attemptsMade client retries :=
    madeFrom_pos client 0 retries (by omega)
  rw [h1, List.getElem?_map, List.getElem?_range (by omega)]
  rfl

/-- Witness for C6: two failures then a success under budget 4 sleep
for 1 then 2 time units, and the second sleep is at index 1. -/
theorem claim_C6_witness :
    (download_image (fun k => if k = 2 then Resp.ok [7] else Resp.err) ['s'] 4
      (fun _ => none)).sleeps = [1, 2]
    ∧ ((download_image (fun k => if k = 2 then Resp.ok [7] else Resp.err) ['s'] 4
      (fun _ => none)).sleeps)[1]? = some 2 := by
  have h := claim_C6_backoff (fun k => if k = 2 then Resp.ok [7] else Resp.err) ['s'] 4
    (fun _ => none) (by decide)
  refine ⟨?_, h.2.1 3 (by decide) (by decide)⟩
  rw [h.1]
  rfl

/-- Claim C7 counterexample: a listing failure (the chapter page fetch
raises an HTTP error) and a genuinely empty listing (the page fetch
succeeds but the html carries no chapImages assignment) produce
identical observables: get_image_urls returns the empty list in both
cases and download_chapter takes the same skip branch with the same
message and the same returned directory, so the caller cannot tell the
two causes apart, contrary to the claim. -/
theorem claim_C7_counterexample :
    get_image_urls PageFetch.httpError
        = get_image_urls (PageFetch.ok "<p>no images</p>".data)
    ∧ get_image_urls PageFetch.httpError = []
    ∧ chapterSkips PageFetch.httpError
        = chapterSkips (PageFetch.ok "<p>no images</p>".data) := by
  refine ⟨?_, rfl, ?_⟩ <;> rfl

/-- Claim C7 amended: when the batch yields zero locators, the signal
does not distinguish a listing failure from an empty listing: for every
fetched page without a chapImages match, get_image_urls returns the
same empty list as on an HTTP error, and download_chapter takes the
same skip branch. -/
theorem claim_C7_amended (html : List Char) (hnone : searchChapImages html = none) :
    get_image_urls (PageFetch.ok html) = get_image_urls PageFetch.httpError
    ∧ get_image_urls (PageFetch.ok html) = []
    ∧ chapterSkips (PageFetch.ok html) = chapterSkips PageFetch.httpError := by
  have h : get_image_urls (PageFetch.ok html) = [] := by
    simp [get_image_urls, hnone]
  exact ⟨h.trans rfl, h, by rw [chapterSkips, chapterSkips, h]; rfl⟩

/-- Witness for the amended C7 at a concrete empty page. -/
theorem claim_C7_amended_witness :
    get_image_urls (PageFetch.ok "<p>empty</p>".data) = get_image_urls PageFetch.httpError :=
  (claim_C7_amended "<p>empty</p>".data (by decide)).1

/-- Claim C8 counterexample: with retry budget 0 the range(0) loop body
of download_image never runs; the call silently returns None rather
than aborting with a configuration error, makes zero attempts, sleeps
zero times and proceeds normally, contrary to the claimed abort. -/
theorem claim_C8_counterexample :
    (download_image (fun _ => Resp.ok [1]) ['p'] 0 (fun _ => none)).ok = none
    ∧ (download_image (fun _ => Resp.ok [1]) ['p'] 0 (fun _ => none)).sleeps = []
    ∧ attemptsMade (fun _ => Resp.ok [1]) 0 = 0 :=
  ⟨rfl, rfl, rfl⟩

/-- Claim C8 amended: the code performs no validation of the configured
values: a download_image call with a non-positive retry budget silently
makes zero attempts and returns None, no boolean and no raised error,
leaving the filesystem untouched, for every client and filesystem. -/
theorem claim_C8_amended (client : Client) (path : List Char) (fs : FS) :
    (download_image client path 0 fs).ok = none
    ∧ (download_image client path 0 fs).fs = fs
    ∧ (download_image client path 0 fs).sleeps = []
    ∧ attemptsMade client 0 = 0 :=
  ⟨rfl, rfl, rfl, rfl⟩

/-- Claim C9: re-running a batch over the same locators writes, at the
destination of every position whose fetch succeeds in the second run,
exactly the payload of that second run, whatever the first run and the
initial filesystem left there; and the content stored at such a
position is entirely independent of the pre-existing files, so presence
of a previous file never causes an item to be skipped. -/
theorem claim_C9_rerun_overwrites (clients1 clients2 : Nat → Client) (retries : Nat)
    (urls : List (List Char)) (fs0 : FS) (i : Nat) (url : List Char)
    (hi : urls[i]? = some url)
    (hok : ∃ k < retries, attemptOk (clients2 i) k = true) :
    runBatchFS clients2 retries urls (runBatchFS clients1 retries urls fs0)
        (destName i url)
      = some (respContent ((clients2 i) (firstOkFrom (clients2 i) 0 retries)))
    ∧ (∀ fsA fsB : FS,
        runBatchFS clients2 retries urls fsA (destName i url)
          = runBatchFS clients2 retries urls fsB (destName i url)) := by
  have hany : (List.range retries).any (attemptOk (clients2 i)) = true := by
    rcases hok with ⟨k, hk1, hk2⟩
    exact List.any_eq_true.mpr ⟨k, List.mem_range.mpr hk1, hk2⟩
  refine ⟨runBatchFS_success_at clients2 retries urls _ i url hi hany, ?_⟩
  intro fsA fsB
  rw [runBatchFS_success_at clients2 retries urls fsA i url hi hany,
    runBatchFS_success_at clients2 retries urls fsB i url hi hany]

/-- Witness for C9: a first run that fails everywhere followed by a
second run that succeeds leaves the payload of the second run at
position 1. -/
theorem claim_C9_witness :
    runBatchFS (fun _ _ => Resp.ok [3]) 1 ["a.png".data, "b".data]
      (runBatchFS (fun _ _ => Resp.err) 1 ["a.png".data, "b".data] (fun _ => none))
      (destName 1 "b".data) = some [3] := by
  have h := claim_C9_rerun_overwrites (fun _ _ => Resp.err) (fun _ _ => Resp.ok [3]) 1
    ["a.png".data, "b".data] (fun _ => none) 1 "b".data (by decide)
    ⟨0, by decide, by decide⟩
  exact h.1

/-- Claim C10: each destination name is page_ then position + 1 then
the extension inferred from the locator with everything from the first
question mark removed; the removal drops exactly the query string;
the inferred extension is never empty and always begins with a dot,
falling back to .jpg when the stripped path has none. -/
theorem claim_C10_extension (url : List Char) (i : Nat) (u1 u2 : List Char)
    (hq : '?' ∉ u1) :
    destName i url = "page_".data ++ natDecimal (i + 1) ++ inferExt url
    ∧ splitQuery (u1 ++ '?' :: u2) = u1
    ∧ (splitextExt (splitQuery url) = [] → inferExt url = ".jpg".data)
    ∧ (splitextExt (splitQuery url) ≠ [] → inferExt url = splitextExt (splitQuery url))
    ∧ inferExt url ≠ []
    ∧ (inferExt url).head? = some '.' := by
  refine ⟨rfl, ?_, ?_, ?_, inferExt_ne_nil url, inferExt_head url⟩
  · rw [splitQuery]
    refine takeWhile_append_head _ _ _ ?_ ?_
    · intro c hc
      simp only [decide_eq_true_eq]
      exact fun heq => hq (heq ▸ hc)
    · intro c0 hc0
      have : c0 = '?' := (Option.some.inj hc0).symm
      subst this
      rfl
  · intro he
    simp [inferExt, he]
  · intro he
    simp [inferExt, he]

/-- Witness for C10 at a concrete locator with a query string. -/
theorem claim_C10_witness :
    splitQuery ("ab.png".data ++ '?' :: "q=1".data) = "ab.png".data
    ∧ inferExt "ab.png?q=1".data ≠ [] := by
  have h := claim_C10_extension "ab.png?q=1".data 0 "ab.png".data "q=1".data (by decide)
  exact ⟨h.2.1, h.2.2.2.2.1⟩

end MB

